import Mathlib

/-!
Shallow embedding of the type-inference / conflict-diagnostic engine of the
`norm` compiler.

The IR data model follows `src/ir/element.rs`; the typing rules follow
`src/ty/infer.rs`; the fixpoint scheduling follows
`src/ir/system/infer_types.rs`.  The `ty` module itself (the `Type` value
algebra, `ty::class`, `ty::error` and the `Db` query abstraction) is not among
the sources, so its shape is reconstructed from its uses in `src/ty/infer.rs`,
`src/graph.rs` and `src/codegen/abi_type.rs`, falling back on the
specification where noted.  Rust `HashMap`s are modelled as association
lists, `specs::Entity` / `ir::Entity` identifiers as natural numbers, and
source locations as natural numbers.
-/

/-- IR entity identifier (`specs::Entity` / `ir::Entity`). -/
abbrev Entity := Nat

/-- Identifier used as a record-field / module-member name (`ir::Ident`). -/
abbrev Ident := String

/-- Source location attached to an entity (a `codespan` span), opaque here. -/
abbrev Loc := Nat

/-- Numeric type kinds (`ty::Number`, visible in `graph.rs` and
`abi_type.rs`). -/
inductive NumberKind where
  | u8
  | u16
  | u32
  | u64
  | i8
  | i16
  | i32
  | i64
  | f32
  | f64
deriving DecidableEq

/-- Numeric literal payloads (`element::Number`).  Unsigned payloads are
naturals, signed payloads are integers, and float payloads are carried as
their IEEE-754 bit patterns (the `ordered_float` wrappers compare by value;
inference never inspects the payload, only the variant). -/
inductive NumberLit where
  | u8 (v : Nat)
  | u16 (v : Nat)
  | u32 (v : Nat)
  | u64 (v : Nat)
  | i8 (v : Int)
  | i16 (v : Int)
  | i32 (v : Int)
  | i64 (v : Int)
  | f32 (bits : Nat)
  | f64 (bits : Nat)
deriving DecidableEq

/-- Integral scalar subclasses (`ty::class::IntegralScalar`).
Modelled from the spec: the `ty::class` module is not among the sources;
its variants are visible in `graph.rs` and `src/ty/infer.rs`. -/
inductive IntegralScalar where
  | signed
  | unsigned
  | any
deriving DecidableEq

/-- Scalar classes (`ty::class::Scalar`).
Modelled from the spec: the `ty::class` module is not among the sources; the
spec lists `Void | Boolean | Integral | Fractional | Complex | Undefined`,
and `src/ty/infer.rs` additionally uses `ty::class::Scalar::Symbol`. -/
inductive Scalar where
  | void
  | boolean
  | integral (sub : IntegralScalar)
  | fractional
  | complex
  | undefined
  | symbol
deriving DecidableEq

mutual

/-- The type algebra (`ty::Type` as used by `src/ty/infer.rs`): `Boolean`,
kinded numbers, `String`, `Symbol`, `Tuple`, `Record`, `Function`, `Union`
(a set of symbol labels, cf. `abi_type.rs`), and `Placeholder` (the spec's
`Any`: used only inside conflict descriptions, never as a resolved type).
Ordered type lists (`Vec<Arc<Type>>`) are the mutual type `TyList`; record
field maps (`HashMap<Ident, Arc<Type>>`) are the association-list type
`FieldList`. -/
inductive Ty where
  | boolean
  | number (kind : NumberKind)
  | string
  | symbol (label : Ident)
  | tuple (fields : TyList)
  | record (fields : FieldList)
  | function (parameters : TyList) (result : Ty)
  | union (alternatives : Finset Ident)
  | placeholder

/-- An ordered list of types (`Vec<Arc<Type>>`). -/
inductive TyList where
  | nil
  | cons (head : Ty) (tail : TyList)

/-- A record-field map, name to type (`HashMap<Ident, Arc<Type>>`), modelled
as an association list. -/
inductive FieldList where
  | nil
  | cons (name : Ident) (ty : Ty) (tail : FieldList)

end

deriving instance DecidableEq for Ty, TyList, FieldList

mutual

/-- Expected-type descriptions inside conflicts (`ty::error::ExpectedType`),
reconstructed from its uses in `src/ty/infer.rs`: `Specific`, `ScalarClass`,
`AnyOf` and `Union`. -/
inductive ExpectedType where
  | specific (t : Ty)
  | scalarClass (c : Scalar)
  | anyOf (choices : ExpectedList)
  | union

/-- A list of expected-type alternatives (the payload of
`ExpectedType::AnyOf`). -/
inductive ExpectedList where
  | nil
  | cons (head : ExpectedType) (tail : ExpectedList)

end

deriving instance DecidableEq for ExpectedType, ExpectedList

/-- A secondary diagnostic annotation (`ty::error::AuxEntity`):
a source location together with a label. -/
structure AuxEntity where
  entity : Loc
  label : String
deriving DecidableEq

/-- A structured type mismatch (`ty::error::Conflict`): expected shape,
actual type, main location and secondary annotations. -/
structure Conflict where
  expected : ExpectedType
  actual : Ty
  main_entity : Loc
  aux_entities : List AuxEntity
deriving DecidableEq

/-- Unary operators (`element::UnOperator`). -/
inductive UnOperator where
  | not
  | bnot
  | cl0
  | cl1
  | cls
  | ct0
  | ct1
  | c0
  | c1
  | sqrt
deriving DecidableEq

/-- Binary operators (`element::BiOperator`). -/
inductive BiOperator where
  | eq
  | ne
  | lt
  | ge
  | gt
  | le
  | cmp
  | add
  | sub
  | mul
  | div
  | rem
  | and
  | band
  | or
  | bor
  | xor
  | bxor
  | andNot
  | bandNot
  | orNot
  | borNot
  | xorNot
  | bxorNot
  | rotL
  | rotR
  | shL
  | shR
deriving DecidableEq

/-- IR node payloads (`element::Element` from `src/ir/element.rs`).  The Rust
`Variable` variant is `var` here because `variable` is a Lean keyword; entity
maps (`HashMap<Ident, ir::Entity>`) are association lists. -/
inductive Element where
  | number (n : NumberLit)
  | string (value : String)
  | symbol (label : Ident)
  | tuple (fields : List Entity)
  | record (fields : List (Ident × Entity))
  | unOp (operator : UnOperator) (operand : Entity)
  | biOp (lhs : Entity) (operator : BiOperator) (rhs : Entity)
  | var (name : Ident) (initializer : Entity)
  | select (record : Entity) (field : Ident)
  | apply (function : Entity) (parameters : List Entity)
  | parameter (name : Ident) (signature : Entity)
  | capture (name : Ident) (captured : Entity)
  | closure (captures : List (Ident × Entity)) (parameters : List Entity)
      (statements : List Entity) (signature : Entity) (result : Entity)
  | module (vars : List (Ident × Entity))
deriving DecidableEq

/-- Maps a numeric literal to its type kind (`infer::number_type`). -/
def number_type : NumberLit → NumberKind
  | .u8 _ => .u8
  | .u16 _ => .u16
  | .u32 _ => .u32
  | .u64 _ => .u64
  | .i8 _ => .i8
  | .i16 _ => .i16
  | .i32 _ => .i32
  | .i64 _ => .i64
  | .f32 _ => .f32
  | .f64 _ => .f64

/-- Scalar classification of a numeric kind.
Modelled from the spec: a `Number` maps to `Integral` (signed or unsigned) or
`Fractional` by kind; the `ty::class` module is not among the sources. -/
def NumberKind.toScalar : NumberKind → Scalar
  | .u8 | .u16 | .u32 | .u64 => .integral .unsigned
  | .i8 | .i16 | .i32 | .i64 => .integral .signed
  | .f32 | .f64 => .fractional

/-- Scalar classification of a type (the source's `Type::scalar_class`).
Modelled from the spec: numbers classify by kind, `Boolean` is the boolean
class, symbols are the symbol class, and non-scalar types map to
`Undefined`. -/
def Ty.toScalar : Ty → Scalar
  | .boolean => .boolean
  | .number k => NumberKind.toScalar k
  | .symbol _ => .symbol
  | _ => .undefined

/-- Union extension (the source's `ty::Union::with`).
Modelled from the spec: returns a new union with the symbol label added,
duplicate-safe; membership is a set, so order is irrelevant and duplicates
collapse. -/
def union_with (alternatives : Finset Ident) (label : Ident) : Finset Ident :=
  insert label alternatives

/-- Rendering of numeric kinds, following `graph.rs`. -/
def NumberKind.pretty : NumberKind → String
  | .u8 => "u8"
  | .u16 => "u16"
  | .u32 => "u32"
  | .u64 => "u64"
  | .i8 => "i8"
  | .i16 => "i16"
  | .i32 => "i32"
  | .i64 => "i64"
  | .f32 => "f32"
  | .f64 => "f64"

mutual

/-- Rendering of a type into a diagnostic string.
Modelled from the spec: the `Display` implementation for the current
`ty::Type` is not among the sources; constructors shared with `graph.rs`
follow its rendering (without dot-label escaping). -/
def Ty.pretty : Ty → String
  | .boolean => "bool"
  | .number k => NumberKind.pretty k
  | .string => "str"
  | .symbol label => "sym:" ++ label
  | .tuple fields => "(" ++ TyList.prettyElems fields ++ ")"
  | .record fields => "\x7b" ++ FieldList.prettyElems fields ++ "\x7d"
  | .function parameters result => "|" ++ TyList.prettyElems parameters ++ "|:" ++ Ty.pretty result
  | .union alternatives =>
      "union(" ++ String.intercalate "," (Finset.sort (fun a b => a ≤ b) alternatives) ++ ")"
  | .placeholder => "any"

/-- Comma-separated rendering of a type list. -/
def TyList.prettyElems : TyList → String
  | .nil => ""
  | .cons t .nil => Ty.pretty t
  | .cons t rest => Ty.pretty t ++ "," ++ TyList.prettyElems rest

/-- Comma-separated rendering of record fields. -/
def FieldList.prettyElems : FieldList → String
  | .nil => ""
  | .cons name t .nil => name ++ ":" ++ Ty.pretty t
  | .cons name t rest => name ++ ":" ++ Ty.pretty t ++ "," ++ FieldList.prettyElems rest

end

/-- The label attached to the secondary annotation of binary-operator
conflicts (the `format!` call sites in `src/ty/infer.rs`). -/
def other_operand_label (t : Ty) : String :=
  "other operand has type `" ++ Ty.pretty t ++ "`"

/-- Outcome of a typing query for one entity.  `ok` and `conflict` mirror the
two sides of the source's `Result<Arc<Type>, ty::error::Error>` (a conflict is
the `Error::Conflict` payload); `pending` models a dependency whose type is
not yet available (the `None` outcome of `infer_types.rs`, only meaningful
under the fixpoint strategy); `fatal` models the `unimplemented!()` panic,
which unwinds past per-entity conflict reporting. -/
inductive ResG (α : Type) where
  | pending
  | fatal
  | ok (val : α)
  | conflict (c : Conflict)
deriving DecidableEq

/-- Typing outcome carrying a type (`Result<Arc<Type>, Error>`). -/
abbrev Res := ResG Ty

/-- Sequencing of typing outcomes: the Rust `?` operator.  `conflict`,
`pending` and `fatal` short-circuit. -/
def ResG.andThen : ResG α → (α → ResG β) → ResG β
  | .pending, _ => .pending
  | .fatal, _ => .fatal
  | .conflict c, _ => .conflict c
  | .ok a, f => f a

/-- An outcome is a value when it is `ok` or `conflict`: exactly the outcomes
the fixpoint strategy commits to the type map. -/
def ResG.isValue : ResG α → Bool
  | .ok _ => true
  | .conflict _ => true
  | _ => false

/-- Resolves the types of an ordered entity list, first failure wins
(the `.iter().map(|p| db.ty(*p)).collect::<Result<Vec<_>, _>>()` idiom of
`src/ty/infer.rs`). -/
def resolve_list (tyOf : Entity → Res) : List Entity → ResG TyList
  | [] => .ok .nil
  | e :: es =>
      (tyOf e).andThen fun t =>
        (resolve_list tyOf es).andThen fun ts => .ok (.cons t ts)

/-- Resolves the types of a name-to-entity map, first failure wins
(the field-map `collect` idiom of `record_type` / `module_type`). -/
def resolve_fields (tyOf : Entity → Res) : List (Ident × Entity) → ResG FieldList
  | [] => .ok .nil
  | (k, v) :: rest =>
      (tyOf v).andThen fun t =>
        (resolve_fields tyOf rest).andThen fun ts => .ok (.cons k t ts)

/-- The canonical boolean type singleton (`db.bool_ty()`). -/
def bool_ty : Ty := .boolean

/-- Field lookup in a record type (`fields.get(&field)`). -/
def FieldList.find : FieldList → Ident → Option Ty
  | .nil, _ => none
  | .cons name t rest, field => if name = field then some t else FieldList.find rest field

/-- The rule helper `infer::if_eq_then`: both operand types must be equal;
otherwise a conflict blaming the right operand, with a secondary annotation
at the left operand. -/
def if_eq_then (locOf : Entity → Loc) (lhs_entity : Entity) (lhs : Ty)
    (rhs_entity : Entity) (rhs : Ty) (result : Ty) : Res :=
  if lhs = rhs then
    .ok result
  else
    .conflict ⟨.specific lhs, rhs, locOf rhs_entity,
      [⟨locOf lhs_entity, other_operand_label lhs⟩]⟩

/-- The rule helper `infer::bool_op` for the logical binary operators:
the left operand is checked first. -/
def bool_op (locOf : Entity → Loc) (lhs_entity : Entity) (lhs : Ty)
    (rhs_entity : Entity) (rhs : Ty) : Res :=
  if lhs = bool_ty then
    if rhs = bool_ty then
      .ok bool_ty
    else
      .conflict ⟨.specific bool_ty, rhs, locOf rhs_entity,
        [⟨locOf lhs_entity, other_operand_label lhs⟩]⟩
  else
    .conflict ⟨.specific bool_ty, lhs, locOf lhs_entity,
      [⟨locOf rhs_entity, other_operand_label rhs⟩]⟩

/-- The rule helper `infer::or_op`: a union extends with a symbol, booleans
disjoin, and anything else is a conflict expecting boolean-or-union. -/
def or_op (locOf : Entity → Loc) (lhs_entity : Entity) (lhs : Ty)
    (rhs_entity : Entity) (rhs : Ty) : Res :=
  match lhs with
  | .union u =>
      match rhs with
      | .symbol s => .ok (.union (union_with u s))
      | _ =>
          .conflict ⟨.scalarClass .symbol, rhs, locOf rhs_entity,
            [⟨locOf lhs_entity, other_operand_label lhs⟩]⟩
  | _ =>
      if lhs = bool_ty then
        if rhs = bool_ty then
          .ok bool_ty
        else
          .conflict ⟨.specific bool_ty, rhs, locOf rhs_entity,
            [⟨locOf lhs_entity, other_operand_label lhs⟩]⟩
      else
        .conflict ⟨.anyOf (.cons (.specific bool_ty) (.cons .union .nil)), lhs,
          locOf lhs_entity, [⟨locOf rhs_entity, other_operand_label rhs⟩]⟩

/-- The rule helper `infer::if_integral_then`. -/
def if_integral_then (locOf : Entity → Loc) (entity : Entity) (t : Ty)
    (result : Ty) : Res :=
  match Ty.toScalar t with
  | .integral _ => .ok result
  | _ => .conflict ⟨.scalarClass (.integral .any), t, locOf entity, []⟩

/-- The rule helper `infer::if_integral_and_eq_then` for shifts and
rotations. -/
def if_integral_and_eq_then (locOf : Entity → Loc) (lhs_entity : Entity)
    (lhs : Ty) (rhs_entity : Entity) (rhs : Ty) (expected : Ty)
    (result : Ty) : Res :=
  match Ty.toScalar lhs with
  | .integral _ =>
      if rhs = expected then
        .ok result
      else
        .conflict ⟨.specific expected, rhs, locOf rhs_entity,
          [⟨locOf lhs_entity, other_operand_label lhs⟩]⟩
  | _ =>
      .conflict ⟨.scalarClass (.integral .any), lhs, locOf lhs_entity,
        [⟨locOf rhs_entity, other_operand_label rhs⟩]⟩

/-- The rule helper `infer::if_fractional_then`. -/
def if_fractional_then (locOf : Entity → Loc) (entity : Entity) (t : Ty)
    (result : Ty) : Res :=
  match Ty.toScalar t with
  | .fractional => .ok result
  | _ => .conflict ⟨.scalarClass .fractional, t, locOf entity, []⟩

/-- The rule for `Element::Tuple` (`infer::tuple_type`). -/
def tuple_type (tyOf : Entity → Res) (fields : List Entity) : Res :=
  (resolve_list tyOf fields).andThen fun ts => .ok (.tuple ts)

/-- The rule for `Element::Record` (`infer::record_type`). -/
def record_type (tyOf : Entity → Res) (fields : List (Ident × Entity)) : Res :=
  (resolve_fields tyOf fields).andThen fun ts => .ok (.record ts)

/-- The rule for `Element::UnOp` (`infer::un_op_type`). -/
def un_op_type (tyOf : Entity → Res) (locOf : Entity → Loc) (operand : Entity)
    (operator : UnOperator) : Res :=
  (tyOf operand).andThen fun t =>
    match operator with
    | .not =>
        if t = bool_ty then
          .ok bool_ty
        else
          .conflict ⟨.specific bool_ty, t, locOf operand, []⟩
    | .bnot => if_integral_then locOf operand t t
    | .cl0 | .cl1 | .cls | .ct0 | .ct1 | .c0 | .c1 =>
        if_integral_then locOf operand t (.number .u32)
    | .sqrt => if_fractional_then locOf operand t t

/-- The rule for `Element::BiOp` (`infer::bi_op_type`): both operand types are
resolved before the operator is examined; `Cmp` is `unimplemented!()`. -/
def bi_op_type (tyOf : Entity → Res) (locOf : Entity → Loc) (lhs : Entity)
    (operator : BiOperator) (rhs : Entity) : Res :=
  (tyOf lhs).andThen fun lhs_ty =>
    (tyOf rhs).andThen fun rhs_ty =>
      match operator with
      | .eq | .ne | .lt | .ge | .gt | .le =>
          if_eq_then locOf lhs lhs_ty rhs rhs_ty bool_ty
      | .cmp => .fatal
      | .add | .sub | .mul | .div | .rem
      | .band | .bor | .bxor | .bandNot | .borNot | .bxorNot =>
          if_eq_then locOf lhs lhs_ty rhs rhs_ty lhs_ty
      | .or => or_op locOf lhs lhs_ty rhs rhs_ty
      | .and | .xor | .andNot | .orNot | .xorNot =>
          bool_op locOf lhs lhs_ty rhs rhs_ty
      | .rotL | .rotR | .shL | .shR =>
          if_integral_and_eq_then locOf lhs lhs_ty rhs rhs_ty (.number .u32) lhs_ty

/-- The rule for `Element::Variable` (`infer::variable_type`): passthrough. -/
def variable_type (tyOf : Entity → Res) (initializer : Entity) : Res :=
  tyOf initializer

/-- The rule for `Element::Select` (`infer::select_type`): the record entity
must have a record type containing the field; both failure cases expect the
same shape, a record with the field mapped to the placeholder type. -/
def select_type (tyOf : Entity → Res) (locOf : Entity → Loc) (record : Entity)
    (field : Ident) : Res :=
  (tyOf record).andThen fun record_ty =>
    match record_ty with
    | .record fields =>
        match FieldList.find fields field with
        | some t => .ok t
        | none =>
            .conflict ⟨.specific (.record (.cons field .placeholder .nil)),
              record_ty, locOf record, []⟩
    | _ =>
        .conflict ⟨.specific (.record (.cons field .placeholder .nil)),
          record_ty, locOf record, []⟩

/-- The rule for `Element::Apply` (`infer::apply_type`): the callee type is
resolved first; when it is a function, the actual parameter types must equal
the formal list exactly, and a mismatch reports an expected function built
from the actual argument types; a non-function callee reports the fixed
expected shape `Function([Placeholder], Placeholder)`. -/
def apply_type (tyOf : Entity → Res) (locOf : Entity → Loc) (function : Entity)
    (parameters : List Entity) : Res :=
  (tyOf function).andThen fun function_ty =>
    match function_ty with
    | .function formal_parameters result =>
        (resolve_list tyOf parameters).andThen fun actuals =>
          if actuals = formal_parameters then
            .ok result
          else
            .conflict ⟨.specific (.function actuals .placeholder),
              .function formal_parameters result, locOf function, []⟩
    | _ =>
        .conflict ⟨.specific (.function (.cons .placeholder .nil) .placeholder),
          function_ty, locOf function, []⟩

/-- The rule for `Element::Parameter` (`infer::parameter_type`): the declared
signature entity's type is authoritative. -/
def parameter_type (tyOf : Entity → Res) (signature : Entity) : Res :=
  tyOf signature

/-- The rule for `Element::Capture` (`infer::capture_type`): passthrough. -/
def capture_type (tyOf : Entity → Res) (captured : Entity) : Res :=
  tyOf captured

/-- The rule for `Element::Closure` (`infer::closure_type`): parameter types
are resolved first, then the signature entity's type becomes the result type;
the body's result entity is not cross-checked (disabled in the source). -/
def closure_type (tyOf : Entity → Res) (parameters : List Entity)
    (signature : Entity) (result : Entity) : Res :=
  (resolve_list tyOf parameters).andThen fun params =>
    (tyOf signature).andThen fun signature_ty =>
      .ok (.function params signature_ty)

/-- The rule for `Element::Module` (`infer::module_type`): a record built from
each named member's type. -/
def module_type (tyOf : Entity → Res) (vars : List (Ident × Entity)) : Res :=
  (resolve_fields tyOf vars).andThen fun fields => .ok (.record fields)

/-- The per-element typing rule table (`infer::element_type` from
`src/ty/infer.rs`), exhaustive over the `Element` variants of
`src/ir/element.rs`. -/
def element_type (tyOf : Entity → Res) (locOf : Entity → Loc) : Element → Res
  | .number n => .ok (.number (number_type n))
  | .string _ => .ok .string
  | .symbol label => .ok (.symbol label)
  | .tuple fields => tuple_type tyOf fields
  | .record fields => record_type tyOf fields
  | .unOp operator operand => un_op_type tyOf locOf operand operator
  | .biOp lhs operator rhs => bi_op_type tyOf locOf lhs operator rhs
  | .var _ initializer => variable_type tyOf initializer
  | .select record field => select_type tyOf locOf record field
  | .apply function parameters => apply_type tyOf locOf function parameters
  | .parameter _ signature => parameter_type tyOf signature
  | .capture _ captured => capture_type tyOf captured
  | .closure _ parameters _ signature result =>
      closure_type tyOf parameters signature result
  | .module vars => module_type tyOf vars

/-- A value stored in the type component map: either a resolved type or a
stored conflict.  The fixpoint engine stores conflicts as first-class type
values (cf. `ty::Type::Conflict` in `infer_types.rs` / `graph.rs`). -/
inductive Stored where
  | resolved (t : Ty)
  | conflicted (c : Conflict)
deriving DecidableEq

/-- The typing outcome a stored value answers a query with: a stored conflict
is handed to dependents as the conflict outcome. -/
def storedRes : Stored → Res
  | .resolved t => .ok t
  | .conflicted c => .conflict c

/-- The entity store: entities with `Element` components (an association list
mirroring the ECS element storage) and a source-location lookup. -/
structure Store where
  elems : List (Entity × Element)
  locOf : Entity → Loc

/-- The entities of the store, in component-storage order. -/
def Store.entities (s : Store) : List Entity :=
  s.elems.map Prod.fst

/-- The `Element` component of an entity. -/
def Store.element (s : Store) (e : Entity) : Option Element :=
  s.elems.lookup e

/-- The type component map (`WriteStorage<ty::Type>`). -/
def TyMap := Entity → Option Stored

/-- Reading the type map as a typing query: a missing entry is a pending
dependency. -/
def mapLookup (m : TyMap) : Entity → Res := fun e =>
  match m e with
  | none => .pending
  | some v => storedRes v

/-- The outcomes a round commits (`ok` and `conflict`); `pending` and `fatal`
commit nothing. -/
def toStored : Res → Option Stored
  | .ok t => some (.resolved t)
  | .conflict c => some (.conflicted c)
  | _ => none

/-- One fixpoint round (the `par_join ... flat_map ... collect` of
`InferTypesSystem::run`): every entity that has an element but no type yet is
attempted against the current committed snapshot, and the newly resolvable
(entity, type) pairs are collected. -/
def new_types (s : Store) (m : TyMap) : List (Entity × Stored) :=
  s.elems.filterMap fun p =>
    if (m p.1).isSome then
      none
    else
      (toStored (element_type (mapLookup m) s.locOf p.2)).map fun v => (p.1, v)

/-- Committing a round's results in order (`types.insert(entity, ty)`). -/
def commit (l : List (Entity × Stored)) (m : TyMap) : TyMap :=
  l.foldl (fun m p => fun x => if x = p.1 then some p.2 else m x) m

/-- The number of entities that still lack a type. -/
def untyped_count (s : Store) (m : TyMap) : Nat :=
  (s.elems.filter fun p => (m p.1).isNone).length

/-- The fixpoint loop of `InferTypesSystem::run`, fuelled: rounds commit until
a round commits nothing.  `run_fuel_stable` below shows the fuel spent by
`infer_types_from` always reaches the empty round, so this is the loop's
exact behaviour. -/
def run_fuel (s : Store) : Nat → TyMap → TyMap
  | 0, m => m
  | fuel + 1, m =>
      let nt := new_types s m
      if nt.isEmpty then m else run_fuel s fuel (commit nt m)

/-- The fixpoint (batch) strategy run from an existing type map
(`InferTypesSystem::run`). -/
def infer_types_from (s : Store) (m : TyMap) : TyMap :=
  run_fuel s (untyped_count s m + 1) m

/-- The fixpoint strategy run from an empty type map. -/
def infer_types (s : Store) : TyMap :=
  infer_types_from s (fun _ => none)

/-- The on-demand (pull) strategy.
Modelled from the spec: the salsa-style `Db` implementation behind `db.ty` is
not among the sources; resolving one entity recursively resolves the entities
it depends on through the rule table.  The fuel bounds the recursion depth of
the memoized descent; a query that cannot complete within it (a cyclic or
unresolvable dependency) is `pending`. -/
def pull_ty (s : Store) : Nat → Entity → Res
  | 0, _ => .pending
  | fuel + 1, e =>
      match Store.element s e with
      | none => .pending
      | some el => element_type (pull_ty s fuel) s.locOf el

mutual

/-- The older type algebra of the ECS era (`ir::component::ty`, used by
`src/ir/system/infer_types.rs` and rendered by `graph.rs`): numbers carry no
kind here, `Any` is the in-conflict placeholder, and a `Conflict` is itself a
type value (`Type::Conflict { expected, actual }`), so it can be stored in
the type component map.  Reconstructed from its uses in those two files; the
module itself is not among the sources. -/
inductive OldTy where
  | number
  | string
  | any
  | tuple (fields : OldTyList)
  | record (fields : OldFieldList)
  | function (parameters : OldTyList) (result : OldTy)
  | conflict (expected : OldTy) (actual : OldTy)

/-- An ordered list of old-era types. -/
inductive OldTyList where
  | nil
  | cons (head : OldTy) (tail : OldTyList)

/-- An old-era record-field map, modelled as an association list. -/
inductive OldFieldList where
  | nil
  | cons (name : Ident) (ty : OldTy) (tail : OldFieldList)

end

deriving instance DecidableEq for OldTy, OldTyList, OldFieldList

/-- Field lookup in an old-era record type. -/
def OldFieldList.find : OldFieldList → Ident → Option OldTy
  | .nil, _ => none
  | .cons name t rest, field =>
      if name = field then some t else OldFieldList.find rest field

/-- The ECS fixpoint rule for `Element::Select`
(`infer_types::infer_select_type`): an unresolved record entity defers; a
record type is projected; any other stored type, a stored `Conflict`
included, yields a new `Conflict` type value for the selecting entity. -/
def infer_select_type (types : Entity → Option OldTy) (record : Entity)
    (field : Ident) : Option OldTy :=
  match types record with
  | none => none
  | some t =>
      match t with
      | .record fields =>
          match OldFieldList.find fields field with
          | some ft => some ft
          | none => some (.conflict (.record (.cons field .any .nil)) t)
      | _ => some (.conflict (.record (.cons field .any .nil)) t)

/-- A sample non-scalar record type used by concrete witnesses. -/
def recTy : Ty := .record (.cons "a" .boolean .nil)

/-- A witness typing environment where every entity has the record type. -/
def wTyOf : Entity → Res := fun _ => .ok recTy

/-- A witness location lookup: each entity is its own location. -/
def wLoc : Entity → Loc := fun e => e

/-- C3: for every `BiOp` with operator in `{Eq, Ne, Lt, Ge, Gt, Le}`, equal
operand types of any shape (records included) give `Boolean`, and unequal
operand types give a conflict whose actual type is the rhs type, whose main
location is the rhs entity's location, and whose secondary annotation points
at the lhs entity's type and location. -/
theorem comparison_ops_boolean_or_conflict
    (tyOf : Entity → Res) (locOf : Entity → Loc) (lhs rhs : Entity)
    (op : BiOperator) (hop : op ∈ [BiOperator.eq, .ne, .lt, .ge, .gt, .le])
    (tl tr : Ty) (hl : tyOf lhs = .ok tl) (hr : tyOf rhs = .ok tr) :
    (tl = tr → element_type tyOf locOf (.biOp lhs op rhs) = .ok .boolean) ∧
    (tl ≠ tr → element_type tyOf locOf (.biOp lhs op rhs) =
      .conflict ⟨.specific tl, tr, locOf rhs,
        [⟨locOf lhs, other_operand_label tl⟩]⟩) := by
  fin_cases hop <;>
    exact ⟨fun heq => by
        simp [element_type, bi_op_type, hl, hr, ResG.andThen, if_eq_then,
          bool_ty, heq],
      fun hne => by
        simp [element_type, bi_op_type, hl, hr, ResG.andThen, if_eq_then,
          bool_ty, hne]⟩

/-- Witness for C3 at a concrete record type: two operands of the same
record type compare to `Boolean`. -/
theorem comparison_ops_boolean_or_conflict_witness :
    (recTy = recTy → element_type wTyOf wLoc (.biOp 0 .eq 1) = .ok .boolean) ∧
    (recTy ≠ recTy → element_type wTyOf wLoc (.biOp 0 .eq 1) =
      .conflict ⟨.specific recTy, recTy, wLoc 1,
        [⟨wLoc 0, other_operand_label recTy⟩]⟩) :=
  comparison_ops_boolean_or_conflict wTyOf wLoc 0 1 .eq (by decide) recTy recTy
    rfl rfl

/-- C5: for `Select(record, field)`, a record type containing the field
projects that field's type; a record type missing the field, and a
non-record type, both yield a conflict with the same expected shape — a
record mapping the field to the placeholder type — with the record entity's
type as actual and its location as the main location. -/
theorem select_projects_or_conflicts
    (tyOf : Entity → Res) (locOf : Entity → Loc) (record : Entity)
    (field : Ident) (t : Ty) (h : tyOf record = .ok t) :
    (∀ fields ft, t = .record fields → FieldList.find fields field = some ft →
      element_type tyOf locOf (.select record field) = .ok ft) ∧
    (∀ fields, t = .record fields → FieldList.find fields field = none →
      element_type tyOf locOf (.select record field) =
        .conflict ⟨.specific (.record (.cons field .placeholder .nil)), t,
          locOf record, []⟩) ∧
    ((∀ fields, t ≠ .record fields) →
      element_type tyOf locOf (.select record field) =
        .conflict ⟨.specific (.record (.cons field .placeholder .nil)), t,
          locOf record, []⟩) := by
  refine ⟨?_, ?_, ?_⟩
  · rintro fields ft rfl hf
    simp [element_type, select_type, h, ResG.andThen, hf]
  · rintro fields rfl hf
    simp [element_type, select_type, h, ResG.andThen, hf]
  · intro hnr
    cases t with
    | record fields => exact absurd rfl (hnr fields)
    | boolean => simp [element_type, select_type, h, ResG.andThen]
    | number k => simp [element_type, select_type, h, ResG.andThen]
    | string => simp [element_type, select_type, h, ResG.andThen]
    | symbol label => simp [element_type, select_type, h, ResG.andThen]
    | tuple fields => simp [element_type, select_type, h, ResG.andThen]
    | function p r => simp [element_type, select_type, h, ResG.andThen]
    | union alts => simp [element_type, select_type, h, ResG.andThen]
    | placeholder => simp [element_type, select_type, h, ResG.andThen]

/-- Witness for C5: selecting the field `a` from an entity of type
`recTy = Record(a: Boolean)` projects `Boolean`. -/
theorem select_projects_or_conflicts_witness :
    (∀ fields ft, recTy = .record fields →
      FieldList.find fields "a" = some ft →
      element_type wTyOf wLoc (.select 0 "a") = .ok ft) ∧
    (∀ fields, recTy = .record fields → FieldList.find fields "a" = none →
      element_type wTyOf wLoc (.select 0 "a") =
        .conflict ⟨.specific (.record (.cons "a" .placeholder .nil)), recTy,
          wLoc 0, []⟩) ∧
    ((∀ fields, recTy ≠ .record fields) →
      element_type wTyOf wLoc (.select 0 "a") =
        .conflict ⟨.specific (.record (.cons "a" .placeholder .nil)), recTy,
          wLoc 0, []⟩) :=
  select_projects_or_conflicts wTyOf wLoc 0 "a" recTy rfl

/-- C6: the `Or` operator rule.  A union left operand extends with a symbol
right operand and otherwise conflicts expecting the symbol scalar class; a
boolean left operand requires a boolean right operand; any other left operand
conflicts with expected `AnyOf([Specific(Boolean), Union])`, the lhs type as
actual and the lhs location as main location. -/
theorem or_rule
    (tyOf : Entity → Res) (locOf : Entity → Loc) (lhs rhs : Entity)
    (tl tr : Ty) (hl : tyOf lhs = .ok tl) (hr : tyOf rhs = .ok tr) :
    (∀ u s, tl = .union u → tr = .symbol s →
      element_type tyOf locOf (.biOp lhs .or rhs) =
        .ok (.union (union_with u s))) ∧
    (∀ u, tl = .union u → (∀ s, tr ≠ .symbol s) →
      element_type tyOf locOf (.biOp lhs .or rhs) =
        .conflict ⟨.scalarClass .symbol, tr, locOf rhs,
          [⟨locOf lhs, other_operand_label tl⟩]⟩) ∧
    (tl = .boolean → tr = .boolean →
      element_type tyOf locOf (.biOp lhs .or rhs) = .ok .boolean) ∧
    (tl = .boolean → tr ≠ .boolean →
      element_type tyOf locOf (.biOp lhs .or rhs) =
        .conflict ⟨.specific .boolean, tr, locOf rhs,
          [⟨locOf lhs, other_operand_label tl⟩]⟩) ∧
    ((∀ u, tl ≠ .union u) → tl ≠ .boolean →
      element_type tyOf locOf (.biOp lhs .or rhs) =
        .conflict ⟨.anyOf (.cons (.specific .boolean) (.cons .union .nil)), tl,
          locOf lhs, [⟨locOf rhs, other_operand_label tr⟩]⟩) := by
  refine ⟨?_, ?_, ?_, ?_, ?_⟩
  · rintro u s rfl rfl
    simp [element_type, bi_op_type, hl, hr, ResG.andThen, or_op]
  · rintro u rfl hns
    cases tr <;> first
      | exact absurd rfl (hns _)
      | simp [element_type, bi_op_type, hl, hr, ResG.andThen, or_op]
  · rintro rfl rfl
    simp [element_type, bi_op_type, hl, hr, ResG.andThen, or_op, bool_ty]
  · rintro rfl hne
    simp [element_type, bi_op_type, hl, hr, ResG.andThen, or_op, bool_ty, hne]
  · intro hnu hnb
    cases tl <;> first
      | exact absurd rfl (hnu _)
      | exact absurd rfl hnb
      | simp [element_type, bi_op_type, hl, hr, ResG.andThen, or_op, bool_ty]

/-- Witness typing environment for the `Or` claims: entity 0 has the union
type over labels A and B, every other entity has the symbol type C. -/
def orTyOf : Entity → Res := fun e =>
  if e = 0 then .ok (.union {"A", "B"}) else .ok (.symbol "C")

/-- Witness for C6: a union left operand and a symbol right operand extend
the union. -/
theorem or_rule_witness :
    (∀ u s, Ty.union {"A", "B"} = .union u → Ty.symbol "C" = .symbol s →
      element_type orTyOf wLoc (.biOp 0 .or 1) = .ok (.union (union_with u s))) ∧
    (∀ u, Ty.union {"A", "B"} = .union u → (∀ s, Ty.symbol "C" ≠ .symbol s) →
      element_type orTyOf wLoc (.biOp 0 .or 1) =
        .conflict ⟨.scalarClass .symbol, .symbol "C", wLoc 1,
          [⟨wLoc 0, other_operand_label (.union {"A", "B"})⟩]⟩) ∧
    (Ty.union {"A", "B"} = .boolean → Ty.symbol "C" = .boolean →
      element_type orTyOf wLoc (.biOp 0 .or 1) = .ok .boolean) ∧
    (Ty.union {"A", "B"} = .boolean → Ty.symbol "C" ≠ .boolean →
      element_type orTyOf wLoc (.biOp 0 .or 1) =
        .conflict ⟨.specific .boolean, .symbol "C", wLoc 1,
          [⟨wLoc 0, other_operand_label (.union {"A", "B"})⟩]⟩) ∧
    ((∀ u, Ty.union {"A", "B"} ≠ .union u) → Ty.union {"A", "B"} ≠ .boolean →
      element_type orTyOf wLoc (.biOp 0 .or 1) =
        .conflict ⟨.anyOf (.cons (.specific .boolean) (.cons .union .nil)),
          .union {"A", "B"}, wLoc 0,
          [⟨wLoc 1, other_operand_label (.symbol "C")⟩]⟩) :=
  or_rule orTyOf wLoc 0 1 (.union {"A", "B"}) (.symbol "C") rfl rfl

/-- C7: union membership grows monotonically and as a set under `Or`:
`Union{A,B} | Symbol(C)` is `Union{A,B,C}`, adding the same symbol again
changes nothing, and membership is order-irrelevant and duplicate-free. -/
theorem union_grows_as_set
    (tyOf : Entity → Res) (locOf : Entity → Loc) (lhs rhs : Entity)
    (u : Finset Ident) (a b c : Ident) (hu : u = {a, b})
    (hl : tyOf lhs = .ok (.union u)) (hr : tyOf rhs = .ok (.symbol c)) :
    element_type tyOf locOf (.biOp lhs .or rhs) =
      .ok (.union (union_with u c)) ∧
    union_with u c = {a, b, c} ∧
    union_with (union_with u c) c = union_with u c ∧
    (∀ x, x ∈ union_with u c ↔ x ∈ u ∨ x = c) := by
  refine ⟨?_, ?_, ?_, ?_⟩
  · simp [element_type, bi_op_type, hl, hr, ResG.andThen, or_op]
  · subst hu
    ext x
    simp [union_with]
    tauto
  · simp [union_with, Finset.insert_idem]
  · intro x
    simp [union_with]
    tauto

/-- Witness for C7 with the concrete union `{A, B}` and symbol `C`. -/
theorem union_grows_as_set_witness :
    element_type orTyOf wLoc (.biOp 0 .or 1) =
      .ok (.union (union_with {"A", "B"} "C")) ∧
    union_with {"A", "B"} "C" = {"A", "B", "C"} ∧
    union_with (union_with {"A", "B"} "C") "C" = union_with {"A", "B"} "C" ∧
    (∀ x, x ∈ union_with {"A", "B"} "C" ↔ x ∈ ({"A", "B"} : Finset Ident) ∨
      x = "C") :=
  union_grows_as_set orTyOf wLoc 0 1 {"A", "B"} "A" "B" "C" rfl rfl rfl

/-- C9: for a `BiOp` with the `Cmp` operator, once both operand types are
available the rule is `unimplemented!()` — modelled as the `fatal` outcome,
which is neither a resolved type nor a per-entity conflict and which the
fixpoint scheduler never commits: an engine-fatal condition above the
conflict-reporting layer. -/
theorem cmp_operator_engine_fatal
    (tyOf : Entity → Res) (locOf : Entity → Loc) (lhs rhs : Entity)
    (tl tr : Ty) (hl : tyOf lhs = .ok tl) (hr : tyOf rhs = .ok tr) :
    element_type tyOf locOf (.biOp lhs .cmp rhs) = .fatal := by
  simp [element_type, bi_op_type, hl, hr, ResG.andThen]

/-- Witness for C9 at concrete operand types. -/
theorem cmp_operator_engine_fatal_witness :
    element_type wTyOf wLoc (.biOp 0 .cmp 1) = .fatal :=
  cmp_operator_engine_fatal wTyOf wLoc 0 1 recTy recTy rfl rfl

/-- C10: the logical operators `And/Xor/AndNot/OrNot/XorNot` check the left
operand first: a non-boolean lhs type conflicts with the lhs as actual and
the lhs location as main location (secondary annotation at the rhs),
whatever the rhs type is; the rhs is blamed only when the lhs is boolean. -/
theorem logical_ops_left_biased
    (tyOf : Entity → Res) (locOf : Entity → Loc) (lhs rhs : Entity)
    (op : BiOperator)
    (hop : op ∈ [BiOperator.and, .xor, .andNot, .orNot, .xorNot])
    (tl tr : Ty) (hl : tyOf lhs = .ok tl) (hr : tyOf rhs = .ok tr) :
    (tl ≠ .boolean → element_type tyOf locOf (.biOp lhs op rhs) =
      .conflict ⟨.specific .boolean, tl, locOf lhs,
        [⟨locOf rhs, other_operand_label tr⟩]⟩) ∧
    (tl = .boolean → tr ≠ .boolean →
      element_type tyOf locOf (.biOp lhs op rhs) =
        .conflict ⟨.specific .boolean, tr, locOf rhs,
          [⟨locOf lhs, other_operand_label tl⟩]⟩) ∧
    (tl = .boolean → tr = .boolean →
      element_type tyOf locOf (.biOp lhs op rhs) = .ok .boolean) := by
  fin_cases hop <;>
    exact ⟨fun hne => by
        simp [element_type, bi_op_type, hl, hr, ResG.andThen, bool_op,
          bool_ty, hne],
      fun heq hne => by
        simp [element_type, bi_op_type, hl, hr, ResG.andThen, bool_op,
          bool_ty, heq, hne],
      fun heq heq' => by
        simp [element_type, bi_op_type, hl, hr, ResG.andThen, bool_op,
          bool_ty, heq, heq']⟩

/-- Witness typing environment for C10: entity 0 has type `U32`, every other
entity is boolean. -/
def lbTyOf : Entity → Res := fun e =>
  if e = 0 then .ok (.number .u32) else .ok .boolean

/-- Witness for C10: with a `U32` lhs and a boolean rhs, the conflict blames
the lhs even though the rhs is boolean. -/
theorem logical_ops_left_biased_witness :
    (Ty.number .u32 ≠ .boolean → element_type lbTyOf wLoc (.biOp 0 .and 1) =
      .conflict ⟨.specific .boolean, .number .u32, wLoc 0,
        [⟨wLoc 1, other_operand_label .boolean⟩]⟩) ∧
    (Ty.number .u32 = .boolean → Ty.boolean ≠ .boolean →
      element_type lbTyOf wLoc (.biOp 0 .and 1) =
        .conflict ⟨.specific .boolean, .boolean, wLoc 1,
          [⟨wLoc 0, other_operand_label (.number .u32)⟩]⟩) ∧
    (Ty.number .u32 = .boolean → Ty.boolean = .boolean →
      element_type lbTyOf wLoc (.biOp 0 .and 1) = .ok .boolean) :=
  logical_ops_left_biased lbTyOf wLoc 0 1 .and (by decide) (.number .u32)
    .boolean rfl rfl

/-- C4 (amended): when the callee has a function type and the actual
parameter types resolve, the result is the declared result type exactly when
the ordered actual parameter types equal the formal list (no coercion);
on a mismatch the conflict's expected type is the function shape rebuilt
from the actual argument types with a placeholder result. -/
theorem apply_exact_parameters
    (tyOf : Entity → Res) (locOf : Entity → Loc) (function : Entity)
    (parameters : List Entity) (formal : TyList) (res : Ty) (actuals : TyList)
    (hf : tyOf function = .ok (.function formal res))
    (hp : resolve_list tyOf parameters = .ok actuals) :
    (element_type tyOf locOf (.apply function parameters) = .ok res ↔
      actuals = formal) ∧
    (actuals ≠ formal →
      element_type tyOf locOf (.apply function parameters) =
        .conflict ⟨.specific (.function actuals .placeholder),
          .function formal res, locOf function, []⟩) := by
  have base : element_type tyOf locOf (.apply function parameters) =
      if actuals = formal then ResG.ok res
      else .conflict ⟨.specific (.function actuals .placeholder),
        .function formal res, locOf function, []⟩ := by
    simp [element_type, apply_type, hf, ResG.andThen, hp]
  refine ⟨⟨fun hok => ?_, fun he => ?_⟩, fun hne => ?_⟩
  · by_contra hne
    rw [base] at hok
    simp [hne] at hok
  · rw [base]
    simp [he]
  · rw [base]
    simp [hne]

/-- Witness typing environment for C4: entity 0 is a `Function([U32], U32)`,
every other entity is a `U32`. -/
def c4wTyOf : Entity → Res := fun e =>
  if e = 0 then .ok (.function (.cons (.number .u32) .nil) (.number .u32))
  else .ok (.number .u32)

/-- Witness for C4: calling a `Function([U32], U32)` with one `U32` argument
succeeds with `U32`. -/
theorem apply_exact_parameters_witness :
    (element_type c4wTyOf wLoc (.apply 0 [1]) = .ok (.number .u32) ↔
      TyList.cons (.number .u32) .nil = .cons (.number .u32) .nil) ∧
    (TyList.cons (.number .u32) .nil ≠ .cons (.number .u32) .nil →
      element_type c4wTyOf wLoc (.apply 0 [1]) =
        .conflict ⟨.specific (.function (.cons (.number .u32) .nil) .placeholder),
          .function (.cons (.number .u32) .nil) (.number .u32), wLoc 0, []⟩) :=
  apply_exact_parameters c4wTyOf wLoc 0 [1] (.cons (.number .u32) .nil)
    (.number .u32) (.cons (.number .u32) .nil) rfl rfl

/-- Witness typing environment for the C4 counterexample: entity 0 (the
callee) is a `U32`, every other entity is an `I32`. -/
def c4TyOf : Entity → Res := fun e =>
  if e = 0 then .ok (.number .u32) else .ok (.number .i32)

/-- Counterexample to C4 as stated: applying a non-function callee of type
`U32` to an argument whose type resolves to `I32`, the conflict's expected
type is the fixed shape `Function([Placeholder], Placeholder)` — it is not
reconstructed from the actual argument types, which would give
`Function([I32], Placeholder)`.  Reconstruction from the actuals happens in
the function-typed mismatch case instead (see `apply_exact_parameters`). -/
theorem apply_nonfunction_expected_counterexample :
    element_type c4TyOf wLoc (.apply 0 [1]) =
      .conflict ⟨.specific (.function (.cons .placeholder .nil) .placeholder),
        .number .u32, 0, []⟩ ∧
    resolve_list c4TyOf [1] = .ok (.cons (.number .i32) .nil) ∧
    ExpectedType.specific (.function (.cons .placeholder .nil) .placeholder) ≠
      .specific (.function (.cons (.number .i32) .nil) .placeholder) := by
  decide

/-- Entity store for the C2 counterexample: entities 1 and 2 are `U32` and
`F32` literals, entity 0 is `BiOp(1, And, 2)` (a rule-level mismatch: lhs is
not boolean), and entity 3 is `Tuple([0])`, which depends on the conflicted
entity 0.  Each entity is its own location. -/
def s2 : Store :=
  ⟨[(1, .number (.u32 1)), (2, .number (.f32 0)), (0, .biOp 1 .and 2),
    (3, .tuple [0])], fun e => e⟩

/-- The conflict produced at entity 0 of `s2`: expected boolean, actual
`U32`, main location at entity 1, secondary annotation at entity 2. -/
def c2conflict : Conflict :=
  ⟨.specific .boolean, .number .u32, 1, [⟨2, other_operand_label (.number .f32)⟩]⟩

/-- Counterexample to C2 as stated: under the pull strategy of
`src/ty/infer.rs` a rule-level mismatch is an `Err(Error::Conflict(..))`
value — `Res.conflict` here — rethrown by the `?` operator, so the tuple
entity 3's own typing query returns the very conflict produced for entity 0
(whose main location is entity 1), i.e. the conflict travels up the
evaluation stack on the error channel instead of being a `Type` value
attached to the offending entity (the current `ty::Type` has no conflict
variant at all). -/
theorem conflict_propagates_on_error_channel :
    pull_ty s2 3 0 = .conflict c2conflict ∧
    pull_ty s2 3 3 = .conflict c2conflict ∧
    Conflict.main_entity c2conflict = s2.locOf 1 ∧
    s2.locOf 1 ≠ s2.locOf 3 := by
  decide

/-- C2 (amended): in the ECS fixpoint engine conflicts are first-class type
values stored on the offending entity, and an entity depending on a
conflicted one becomes conflicted through ordinary rule evaluation
(`infer_select_type` wraps the stored conflict into a new conflict for the
selecting entity); in the pull engine of `src/ty/infer.rs` a rule-level
mismatch is returned on the typing query's error channel, and a dependent's
query (here a tuple over a conflicted field) yields the dependency's
conflict by `?`-propagation. -/
theorem conflicts_contained_amended
    (types : Entity → Option OldTy) (record : Entity) (field : Ident)
    (ex ac : OldTy) (h : types record = some (.conflict ex ac))
    (tyOf : Entity → Res) (e : Entity) (rest : List Entity) (c : Conflict)
    (hc : tyOf e = .conflict c) :
    infer_select_type types record field =
      some (.conflict (.record (.cons field .any .nil)) (.conflict ex ac)) ∧
    tuple_type tyOf (e :: rest) = .conflict c := by
  constructor
  · simp [infer_select_type, h]
  · simp [tuple_type, resolve_list, hc, ResG.andThen]

/-- Witness for the amended C2 at concrete inputs. -/
theorem conflicts_contained_amended_witness :
    infer_select_type (fun _ => some (.conflict .number .string)) 0 "y" =
      some (.conflict (.record (.cons "y" .any .nil))
        (.conflict .number .string)) ∧
    tuple_type (fun _ => .conflict c2conflict) (5 :: []) =
      .conflict c2conflict :=
  conflicts_contained_amended (fun _ => some (.conflict .number .string)) 0 "y"
    .number .string rfl (fun _ => .conflict c2conflict) 5 [] c2conflict rfl

theorem commit_apply_of_not_mem (l : List (Entity × Stored)) (m : TyMap)
    (e : Entity) (h : e ∉ l.map Prod.fst) : commit l m e = m e := by
  induction l generalizing m with
  | nil => rfl
  | cons p rest ih =>
      simp only [List.map_cons, List.mem_cons, not_or] at h
      have step : commit (p :: rest) m =
          commit rest (fun x => if x = p.1 then some p.2 else m x) := rfl
      rw [step, ih _ h.2]
      simp [h.1]

theorem commit_isSome_mono (l : List (Entity × Stored)) (m : TyMap) (e : Entity)
    (h : (m e).isSome = true) : (commit l m e).isSome = true := by
  induction l generalizing m with
  | nil => exact h
  | cons p rest ih =>
      refine ih _ ?_
      by_cases he : e = p.1 <;> simp [he, h]

theorem commit_key_isSome (l : List (Entity × Stored)) (m : TyMap) (e : Entity)
    (v : Stored) (h : (e, v) ∈ l) : (commit l m e).isSome = true := by
  induction l generalizing m with
  | nil => cases h
  | cons p rest ih =>
      cases h with
      | head => exact commit_isSome_mono rest _ e (by simp)
      | tail _ h' => exact ih _ h'

theorem commit_mem_or (l : List (Entity × Stored)) (m : TyMap) (e : Entity)
    (v : Stored) (h : commit l m e = some v) : m e = some v ∨ (e, v) ∈ l := by
  induction l generalizing m with
  | nil => exact Or.inl h
  | cons p rest ih =>
      rcases ih _ h with h' | h'
      · by_cases he : e = p.1
        · subst he
          simp at h'
          right
          rw [← h']
          exact List.mem_cons_self _ _
        · left
          simpa [he] using h'
      · exact Or.inr (List.mem_cons_of_mem _ h')

theorem new_types_spec (s : Store) (m : TyMap) (p : Entity × Stored)
    (h : p ∈ new_types s m) :
    m p.1 = none ∧ ∃ el, (p.1, el) ∈ s.elems ∧
      toStored (element_type (mapLookup m) s.locOf el) = some p.2 := by
  simp only [new_types, List.mem_filterMap] at h
  obtain ⟨a, ha, hf⟩ := h
  by_cases hs : (m a.1).isSome
  · simp [hs] at hf
  · simp only [hs, if_neg, Bool.false_eq_true, ite_false] at hf
    obtain ⟨w, hw, hpw⟩ := Option.map_eq_some'.mp hf
    have h1 : p.1 = a.1 := by rw [← hpw]
    have h2 : p.2 = w := by rw [← hpw]
    refine ⟨?_, a.2, ?_, ?_⟩
    · rw [h1]
      exact Option.not_isSome_iff_eq_none.mp hs
    · rw [h1]
      exact ha
    · rw [h2]
      exact hw

theorem run_fuel_preserve (s : Store) :
    ∀ (k : Nat) (m : TyMap) (e : Entity) (v : Stored), m e = some v →
      run_fuel s k m e = some v := by
  intro k
  induction k with
  | zero => intro m e v h; exact h
  | succ k ih =>
      intro m e v h
      rw [run_fuel]
      by_cases hemp : (new_types s m).isEmpty
      · simp only [hemp, ite_true]
        exact h
      · simp only [hemp, Bool.false_eq_true, ite_false]
        refine ih _ e v ?_
        rw [commit_apply_of_not_mem]
        · exact h
        · intro hmem
          simp only [List.mem_map] at hmem
          obtain ⟨q, hq, hqe⟩ := hmem
          have := (new_types_spec s m q hq).1
          rw [hqe] at this
          rw [this] at h
          cases h

theorem length_filter_le_of_imp {α : Type} (l : List α) (p q : α → Bool)
    (himp : ∀ a ∈ l, q a = true → p a = true) :
    (l.filter q).length ≤ (l.filter p).length := by
  induction l with
  | nil => exact Nat.le_refl 0
  | cons b t ih =>
      have ht : ∀ a ∈ t, q a = true → p a = true := fun a ha =>
        himp a (List.mem_cons_of_mem _ ha)
      by_cases hq : q b = true
      · have hp : p b = true := himp b (List.mem_cons_self _ _) hq
        simp only [List.filter_cons, hq, hp, ite_true, List.length_cons]
        exact Nat.succ_le_succ (ih ht)
      · simp only [List.filter_cons, hq, Bool.false_eq_true, ite_false]
        by_cases hp : p b = true
        · simp only [hp, ite_true, List.length_cons]
          exact Nat.le_succ_of_le (ih ht)
        · simp only [hp, Bool.false_eq_true, ite_false]
          exact ih ht

theorem length_filter_lt {α : Type} (l : List α) (p q : α → Bool)
    (himp : ∀ a ∈ l, q a = true → p a = true) (a0 : α) (ha : a0 ∈ l)
    (hp : p a0 = true) (hq : q a0 = false) :
    (l.filter q).length < (l.filter p).length := by
  induction l with
  | nil => cases ha
  | cons b t ih =>
      have ht : ∀ a ∈ t, q a = true → p a = true := fun a ha' =>
        himp a (List.mem_cons_of_mem _ ha')
      cases ha with
      | head =>
          simp only [List.filter_cons, hq, Bool.false_eq_true, ite_false, hp,
            ite_true, List.length_cons]
          exact Nat.lt_succ_of_le (length_filter_le_of_imp t p q ht)
      | tail _ ha' =>
          have hlt := ih ht ha'
          by_cases hqb : q b = true
          · have hpb : p b = true := himp b (List.mem_cons_self _ _) hqb
            simp only [List.filter_cons, hqb, hpb, ite_true, List.length_cons]
            exact Nat.succ_lt_succ hlt
          · simp only [List.filter_cons, hqb, Bool.false_eq_true, ite_false]
            by_cases hpb : p b = true
            · simp only [hpb, ite_true, List.length_cons]
              exact Nat.lt_succ_of_lt hlt
            · simp only [hpb, Bool.false_eq_true, ite_false]
              exact hlt

theorem untyped_decrease (s : Store) (m : TyMap) (h : new_types s m ≠ []) :
    untyped_count s (commit (new_types s m) m) < untyped_count s m := by
  obtain ⟨p0, rest, h0⟩ : ∃ p0 rest, new_types s m = p0 :: rest := by
    cases hnt : new_types s m with
    | nil => exact absurd hnt h
    | cons p0 rest => exact ⟨p0, rest, rfl⟩
  have hp0 : p0 ∈ new_types s m := by
    rw [h0]
    exact List.mem_cons_self _ _
  obtain ⟨hnone, el, hmem, _⟩ := new_types_spec s m p0 hp0
  refine length_filter_lt s.elems _ _ ?_ (p0.1, el) hmem ?_ ?_
  · intro a _ hq
    by_contra hp
    have hsome : (m a.1).isSome = true := by
      cases hma : m a.1 with
      | none => exact absurd (by simp [hma]) hp
      | some w => rfl
    have := commit_isSome_mono (new_types s m) m a.1 hsome
    rw [Option.isNone_iff_eq_none] at hq
    rw [hq] at this
    cases this
  · simp [hnone]
  · have hsome : (commit (new_types s m) m p0.1).isSome = true :=
      commit_key_isSome (new_types s m) m p0.1 p0.2 (by rw [h0]; simp)
    obtain ⟨w, hw⟩ := Option.isSome_iff_exists.mp hsome
    simp [hw]

theorem run_fuel_stable (s : Store) :
    ∀ (k : Nat) (m : TyMap), untyped_count s m < k →
      new_types s (run_fuel s k m) = [] := by
  intro k
  induction k with
  | zero => intro m h; omega
  | succ k ih =>
      intro m h
      rw [run_fuel]
      by_cases hemp : (new_types s m).isEmpty
      · simp only [hemp, ite_true]
        exact List.isEmpty_iff.mp hemp
      · simp only [hemp, Bool.false_eq_true, ite_false]
        refine ih _ ?_
        have hne : new_types s m ≠ [] := by
          simpa [List.isEmpty_iff] using hemp
        have := untyped_decrease s m hne
        omega

theorem infer_types_from_stable (s : Store) (m : TyMap) :
    new_types s (infer_types_from s m) = [] :=
  run_fuel_stable s _ m (Nat.lt_succ_self _)

theorem run_fuel_of_stable (s : Store) (k : Nat) (m : TyMap)
    (h : new_types s m = []) : run_fuel s k m = m := by
  cases k with
  | zero => rfl
  | succ k =>
      rw [run_fuel]
      simp [h]

theorem infer_types_from_idem (s : Store) (m : TyMap) :
    infer_types_from s (infer_types_from s m) = infer_types_from s m :=
  run_fuel_of_stable s _ _ (infer_types_from_stable s m)

/-- C8: the type component map is write-once — a recorded value, a stored
conflict included, is never changed by a run of `InferTypesSystem::run`
(rounds only join entities without a type) — and re-running inference on the
unchanged entity store is a no-op (idempotence). -/
theorem type_map_write_once (s : Store) (m : TyMap) (e : Entity) (v : Stored)
    (h : m e = some v) :
    infer_types_from s m e = some v ∧
    infer_types_from s (infer_types_from s m) = infer_types_from s m :=
  ⟨run_fuel_preserve s _ m e v h, infer_types_from_idem s m⟩

/-- Witness entity store for C8 and C1: a `U32` literal and a variable bound
to it. -/
def s1 : Store := ⟨[(0, .number (.u32 1)), (1, .var "x" 0)], fun e => e⟩

/-- Witness initial map for C8: entity 0 already has the (string!) type
recorded, so inference must keep it rather than re-derive `U32`. -/
def m8 : TyMap := fun e => if e = 0 then some (.resolved .string) else none

/-- Witness for C8 at a concrete store and pre-filled map. -/
theorem type_map_write_once_witness :
    m8 0 = some (.resolved .string) ∧
    (infer_types_from s1 m8 0 = some (.resolved .string) ∧
     infer_types_from s1 (infer_types_from s1 m8) = infer_types_from s1 m8) :=
  ⟨rfl, type_map_write_once s1 m8 0 (.resolved .string) rfl⟩

theorem storedRes_isValue (v : Stored) : (storedRes v).isValue = true := by
  cases v <;> rfl

theorem storedRes_inj (w v : Stored) (h : storedRes w = storedRes v) : w = v := by
  cases w <;> cases v <;> simp [storedRes] at h <;> rw [h]

theorem toStored_eq_some (r : Res) (v : Stored) (h : toStored r = some v) :
    r.isValue = true ∧ storedRes v = r := by
  cases r with
  | ok t => simp [toStored] at h; simp [← h, storedRes, ResG.isValue]
  | conflict c => simp [toStored] at h; simp [← h, storedRes, ResG.isValue]
  | pending => simp [toStored] at h
  | fatal => simp [toStored] at h

theorem isValue_toStored (r : Res) (h : r.isValue = true) :
    ∃ v, toStored r = some v ∧ storedRes v = r := by
  cases r with
  | ok t => exact ⟨.resolved t, rfl, rfl⟩
  | conflict c => exact ⟨.conflicted c, rfl, rfl⟩
  | pending => simp [ResG.isValue] at h
  | fatal => simp [ResG.isValue] at h

theorem mapLookup_value (m : TyMap) (x : Entity)
    (h : (mapLookup m x).isValue = true) :
    ∃ v, m x = some v ∧ mapLookup m x = storedRes v := by
  cases hm : m x with
  | none => rw [mapLookup, hm] at h; simp [ResG.isValue] at h
  | some v =>
      refine ⟨v, rfl, ?_⟩
      rw [mapLookup, hm]

theorem resolve_list_mono (tyOf tyOf' : Entity → Res)
    (h : ∀ x, (tyOf x).isValue = true → tyOf' x = tyOf x) :
    ∀ l : List Entity, (resolve_list tyOf l).isValue = true →
      resolve_list tyOf' l = resolve_list tyOf l := by
  intro l
  induction l with
  | nil => intro _; rfl
  | cons e es ih =>
      intro hv
      simp only [resolve_list] at hv ⊢
      cases hx : tyOf e with
      | pending => rw [hx] at hv; simp [ResG.andThen, ResG.isValue] at hv
      | fatal => rw [hx] at hv; simp [ResG.andThen, ResG.isValue] at hv
      | conflict c => rw [h e (by rw [hx]; rfl), hx]; rfl
      | ok t =>
          rw [h e (by rw [hx]; rfl), hx]
          rw [hx] at hv
          simp only [ResG.andThen] at hv ⊢
          cases hr : resolve_list tyOf es with
          | pending => rw [hr] at hv; simp [ResG.andThen, ResG.isValue] at hv
          | fatal => rw [hr] at hv; simp [ResG.andThen, ResG.isValue] at hv
          | conflict c => rw [ih (by rw [hr]; rfl), hr]
          | ok ts => rw [ih (by rw [hr]; rfl), hr]

theorem resolve_fields_mono (tyOf tyOf' : Entity → Res)
    (h : ∀ x, (tyOf x).isValue = true → tyOf' x = tyOf x) :
    ∀ l : List (Ident × Entity), (resolve_fields tyOf l).isValue = true →
      resolve_fields tyOf' l = resolve_fields tyOf l := by
  intro l
  induction l with
  | nil => intro _; rfl
  | cons p rest ih =>
      intro hv
      cases p with
      | mk k v =>
        simp only [resolve_fields] at hv ⊢
        cases hx : tyOf v with
        | pending => rw [hx] at hv; simp [ResG.andThen, ResG.isValue] at hv
        | fatal => rw [hx] at hv; simp [ResG.andThen, ResG.isValue] at hv
        | conflict c => rw [h v (by rw [hx]; rfl), hx]; rfl
        | ok t =>
            rw [h v (by rw [hx]; rfl), hx]
            rw [hx] at hv
            simp only [ResG.andThen] at hv ⊢
            cases hr : resolve_fields tyOf rest with
            | pending => rw [hr] at hv; simp [ResG.andThen, ResG.isValue] at hv
            | fatal => rw [hr] at hv; simp [ResG.andThen, ResG.isValue] at hv
            | conflict c => rw [ih (by rw [hr]; rfl), hr]
            | ok ts => rw [ih (by rw [hr]; rfl), hr]

theorem element_type_mono (tyOf tyOf' : Entity → Res) (locOf : Entity → Loc)
    (h : ∀ x, (tyOf x).isValue = true → tyOf' x = tyOf x) :
    ∀ el : Element, (element_type tyOf locOf el).isValue = true →
      element_type tyOf' locOf el = element_type tyOf locOf el := by
  intro el hv
  cases el with
  | number n => rfl
  | string v => rfl
  | symbol l => rfl
  | tuple fields =>
      simp only [element_type, tuple_type] at hv ⊢
      cases hr : resolve_list tyOf fields with
      | pending => rw [hr] at hv; simp [ResG.andThen, ResG.isValue] at hv
      | fatal => rw [hr] at hv; simp [ResG.andThen, ResG.isValue] at hv
      | conflict c => rw [resolve_list_mono tyOf tyOf' h fields (by rw [hr]; rfl), hr]
      | ok ts => rw [resolve_list_mono tyOf tyOf' h fields (by rw [hr]; rfl), hr]
  | record fields =>
      simp only [element_type, record_type] at hv ⊢
      cases hr : resolve_fields tyOf fields with
      | pending => rw [hr] at hv; simp [ResG.andThen, ResG.isValue] at hv
      | fatal => rw [hr] at hv; simp [ResG.andThen, ResG.isValue] at hv
      | conflict c => rw [resolve_fields_mono tyOf tyOf' h fields (by rw [hr]; rfl), hr]
      | ok ts => rw [resolve_fields_mono tyOf tyOf' h fields (by rw [hr]; rfl), hr]
  | unOp operator operand =>
      simp only [element_type, un_op_type] at hv ⊢
      cases hx : tyOf operand with
      | pending => rw [hx] at hv; simp [ResG.andThen, ResG.isValue] at hv
      | fatal => rw [hx] at hv; simp [ResG.andThen, ResG.isValue] at hv
      | conflict c => rw [h operand (by rw [hx]; rfl), hx]
      | ok t => rw [h operand (by rw [hx]; rfl), hx]
  | biOp lhs operator rhs =>
      simp only [element_type, bi_op_type] at hv ⊢
      cases hx : tyOf lhs with
      | pending => rw [hx] at hv; simp [ResG.andThen, ResG.isValue] at hv
      | fatal => rw [hx] at hv; simp [ResG.andThen, ResG.isValue] at hv
      | conflict c => rw [h lhs (by rw [hx]; rfl), hx]; rfl
      | ok tl =>
          rw [h lhs (by rw [hx]; rfl), hx]
          rw [hx] at hv
          simp only [ResG.andThen] at hv ⊢
          cases hy : tyOf rhs with
          | pending => rw [hy] at hv; simp [ResG.andThen, ResG.isValue] at hv
          | fatal => rw [hy] at hv; simp [ResG.andThen, ResG.isValue] at hv
          | conflict c => rw [h rhs (by rw [hy]; rfl), hy]
          | ok tr => rw [h rhs (by rw [hy]; rfl), hy]
  | var name initializer =>
      simp only [element_type, variable_type] at hv ⊢
      exact h initializer hv
  | select record field =>
      simp only [element_type, select_type] at hv ⊢
      cases hx : tyOf record with
      | pending => rw [hx] at hv; simp [ResG.andThen, ResG.isValue] at hv
      | fatal => rw [hx] at hv; simp [ResG.andThen, ResG.isValue] at hv
      | conflict c => rw [h record (by rw [hx]; rfl), hx]
      | ok t => rw [h record (by rw [hx]; rfl), hx]
  | apply function parameters =>
      simp only [element_type, apply_type] at hv ⊢
      cases hx : tyOf function with
      | pending => rw [hx] at hv; simp [ResG.andThen, ResG.isValue] at hv
      | fatal => rw [hx] at hv; simp [ResG.andThen, ResG.isValue] at hv
      | conflict c => rw [h function (by rw [hx]; rfl), hx]; rfl
      | ok fty =>
          rw [h function (by rw [hx]; rfl), hx]
          rw [hx] at hv
          simp only [ResG.andThen] at hv ⊢
          cases fty with
          | function formal res =>
              simp only at hv ⊢
              cases hr : resolve_list tyOf parameters with
              | pending => rw [hr] at hv; simp [ResG.andThen, ResG.isValue] at hv
              | fatal => rw [hr] at hv; simp [ResG.andThen, ResG.isValue] at hv
              | conflict c =>
                  rw [resolve_list_mono tyOf tyOf' h parameters (by rw [hr]; rfl), hr]
              | ok ts =>
                  rw [resolve_list_mono tyOf tyOf' h parameters (by rw [hr]; rfl), hr]
          | boolean => rfl
          | number k => rfl
          | string => rfl
          | symbol l => rfl
          | tuple ts => rfl
          | record fs => rfl
          | union alts => rfl
          | placeholder => rfl
  | parameter name signature =>
      simp only [element_type, parameter_type] at hv ⊢
      exact h signature hv
  | capture name captured =>
      simp only [element_type, capture_type] at hv ⊢
      exact h captured hv
  | closure captures parameters statements signature result =>
      simp only [element_type, closure_type] at hv ⊢
      cases hr : resolve_list tyOf parameters with
      | pending => rw [hr] at hv; simp [ResG.andThen, ResG.isValue] at hv
      | fatal => rw [hr] at hv; simp [ResG.andThen, ResG.isValue] at hv
      | conflict c =>
          rw [resolve_list_mono tyOf tyOf' h parameters (by rw [hr]; rfl), hr]
          rfl
      | ok params =>
          rw [resolve_list_mono tyOf tyOf' h parameters (by rw [hr]; rfl), hr]
          rw [hr] at hv
          simp only [ResG.andThen] at hv ⊢
          cases hs : tyOf signature with
          | pending => rw [hs] at hv; simp [ResG.andThen, ResG.isValue] at hv
          | fatal => rw [hs] at hv; simp [ResG.andThen, ResG.isValue] at hv
          | conflict c => rw [h signature (by rw [hs]; rfl), hs]
          | ok t => rw [h signature (by rw [hs]; rfl), hs]
  | module vars =>
      simp only [element_type, module_type] at hv ⊢
      cases hr : resolve_fields tyOf vars with
      | pending => rw [hr] at hv; simp [ResG.andThen, ResG.isValue] at hv
      | fatal => rw [hr] at hv; simp [ResG.andThen, ResG.isValue] at hv
      | conflict c => rw [resolve_fields_mono tyOf tyOf' h vars (by rw [hr]; rfl), hr]
      | ok ts => rw [resolve_fields_mono tyOf tyOf' h vars (by rw [hr]; rfl), hr]

theorem pull_ty_succ (s : Store) :
    ∀ (f : Nat) (e : Entity), (pull_ty s f e).isValue = true →
      pull_ty s (f + 1) e = pull_ty s f e := by
  intro f
  induction f with
  | zero => intro e hv; simp [pull_ty, ResG.isValue] at hv
  | succ f ih =>
      intro e hv
      rw [pull_ty] at hv
      rw [pull_ty, pull_ty]
      cases hel : Store.element s e with
      | none => rfl
      | some el =>
          rw [hel] at hv
          simp only [hel]
          exact element_type_mono (pull_ty s f) (pull_ty s (f + 1)) s.locOf ih el hv

theorem pull_ty_le (s : Store) (f g : Nat) (hfg : f ≤ g) (e : Entity)
    (hv : (pull_ty s f e).isValue = true) : pull_ty s g e = pull_ty s f e := by
  induction g, hfg using Nat.le_induction with
  | base => rfl
  | succ g hfg ih => rw [pull_ty_succ s g e (by rw [ih]; exact hv), ih]

/-- Agreement between a type map and the pull strategy at a given fuel: every
entry of the map is reproduced by the pull query. -/
def agrees (s : Store) (m : TyMap) (f : Nat) : Prop :=
  ∀ e v, m e = some v → pull_ty s f e = storedRes v

theorem agrees_succ (s : Store) (m : TyMap) (f : Nat) (h : agrees s m f) :
    agrees s m (f + 1) := by
  intro e v hev
  rw [pull_ty_succ s f e (by rw [h e v hev]; exact storedRes_isValue v),
    h e v hev]

theorem agrees_le (s : Store) (m : TyMap) (f g : Nat) (hfg : f ≤ g)
    (h : agrees s m f) : agrees s m g := by
  induction g, hfg using Nat.le_induction with
  | base => exact h
  | succ g hfg ih => exact agrees_succ s m g ih

theorem lookup_of_mem_nodup {β : Type} (l : List (Entity × β))
    (hnd : (l.map Prod.fst).Nodup) (e : Entity) (b : β) (h : (e, b) ∈ l) :
    l.lookup e = some b := by
  induction l with
  | nil => cases h
  | cons p rest ih =>
      cases p with
      | mk k b' =>
          rw [List.map_cons, List.nodup_cons] at hnd
          cases h with
          | head => simp [List.lookup]
          | tail _ h' =>
              have hk : (e == k) = false := by
                refine beq_eq_false_iff_ne.mpr ?_
                intro hke
                subst hke
                exact hnd.1 (List.mem_map.mpr ⟨(e, b), h', rfl⟩)
              simp only [List.lookup, hk]
              exact ih hnd.2 h'

theorem mem_of_lookup {β : Type} (l : List (Entity × β)) (e : Entity) (b : β)
    (h : l.lookup e = some b) : (e, b) ∈ l := by
  induction l with
  | nil => cases h
  | cons p rest ih =>
      cases p with
      | mk k b' =>
          simp only [List.lookup] at h
          cases hbe : e == k with
          | true =>
              rw [hbe] at h
              simp at h
              have hek : e = k := eq_of_beq hbe
              subst hek
              rw [← h]
              exact List.mem_cons_self _ _
          | false =>
              rw [hbe] at h
              exact List.mem_cons_of_mem _ (ih h)

theorem agrees_step (s : Store) (hnd : (s.elems.map Prod.fst).Nodup)
    (m : TyMap) (f : Nat) (h : agrees s m f) :
    agrees s (commit (new_types s m) m) (f + 1) := by
  intro e v hev
  rcases commit_mem_or _ _ _ _ hev with hold | hnew
  · exact agrees_succ s m f h e v hold
  · obtain ⟨hnone, el, hmem, hts⟩ := new_types_spec s m (e, v) hnew
    have hel : Store.element s e = some el :=
      lookup_of_mem_nodup s.elems hnd e el hmem
    obtain ⟨hvr, hsr⟩ := toStored_eq_some _ _ hts
    have hagree : ∀ x, (mapLookup m x).isValue = true →
        pull_ty s f x = mapLookup m x := by
      intro x hx
      obtain ⟨w, hw, hlw⟩ := mapLookup_value m x hx
      rw [h x w hw, hlw]
    rw [pull_ty]
    simp only [hel]
    rw [element_type_mono (mapLookup m) (pull_ty s f) s.locOf hagree el hvr]
    exact hsr.symm

theorem run_fuel_agrees (s : Store) (hnd : (s.elems.map Prod.fst).Nodup) :
    ∀ (k : Nat) (m : TyMap) (f : Nat), agrees s m f →
      agrees s (run_fuel s k m) (f + k) := by
  intro k
  induction k with
  | zero => intro m f h; exact h
  | succ k ih =>
      intro m f h
      rw [run_fuel]
      by_cases hemp : (new_types s m).isEmpty
      · simp only [hemp, ite_true]
        exact agrees_le s m f (f + (k + 1)) (Nat.le_add_right _ _) h
      · simp only [hemp, Bool.false_eq_true, ite_false]
        have hrec := ih (commit (new_types s m) m) (f + 1)
          (agrees_step s hnd m f h)
        have heq : f + 1 + k = f + (k + 1) := by omega
        rw [heq] at hrec
        exact hrec

theorem untyped_count_empty (s : Store) :
    untyped_count s (fun _ => none) = s.elems.length := by
  simp [untyped_count]

theorem infer_types_agrees (s : Store)
    (hnd : (s.elems.map Prod.fst).Nodup) :
    agrees s (infer_types s) (s.elems.length + 1) := by
  have h0 : agrees s (fun _ => none) 0 := fun e v hev => by cases hev
  have hrun := run_fuel_agrees s hnd (untyped_count s (fun _ => none) + 1)
    (fun _ => none) 0 h0
  rw [untyped_count_empty] at hrun
  simpa [infer_types, infer_types_from, untyped_count_empty] using hrun

theorem pull_value_committed (s : Store)
    (hnd : (s.elems.map Prod.fst).Nodup) :
    ∀ (f : Nat) (e : Entity), (pull_ty s f e).isValue = true →
      ∃ v, infer_types s e = some v ∧ storedRes v = pull_ty s f e := by
  intro f
  induction f with
  | zero => intro e hv; simp [pull_ty, ResG.isValue] at hv
  | succ f ih =>
      intro e hv
      cases hel : Store.element s e with
      | none => rw [pull_ty, hel] at hv; simp [ResG.isValue] at hv
      | some el =>
          have hpull : pull_ty s (f + 1) e =
              element_type (pull_ty s f) s.locOf el := by
            rw [pull_ty, hel]
          rw [hpull] at hv
          have hagree : ∀ x, (pull_ty s f x).isValue = true →
              mapLookup (infer_types s) x = pull_ty s f x := by
            intro x hx
            obtain ⟨w, hw, hsw⟩ := ih x hx
            rw [mapLookup, hw]
            exact hsw
          have hmono := element_type_mono (pull_ty s f)
            (mapLookup (infer_types s)) s.locOf hagree el hv
          cases hfin : infer_types s e with
          | some v =>
              refine ⟨v, rfl, ?_⟩
              have hfwd := infer_types_agrees s hnd e v hfin
              have hM1 : pull_ty s (max (f + 1) (s.elems.length + 1)) e =
                  pull_ty s (f + 1) e :=
                pull_ty_le s (f + 1) _ (le_max_left _ _) e (by rw [hpull]; exact hv)
              have hM2 : pull_ty s (max (f + 1) (s.elems.length + 1)) e =
                  pull_ty s (s.elems.length + 1) e :=
                pull_ty_le s (s.elems.length + 1) _ (le_max_right _ _) e
                  (by rw [hfwd]; exact storedRes_isValue v)
              rw [hM1, hpull] at hM2
              rw [hpull, hM2, hfwd]
          | none =>
              exfalso
              have hstable := infer_types_from_stable s (fun _ => none)
              have hmm : (e, el) ∈ s.elems := mem_of_lookup s.elems e el hel
              have hnil := List.filterMap_eq_nil_iff.mp hstable (e, el) hmm
              rw [show infer_types_from s (fun _ => none) = infer_types s from rfl]
                at hnil
              simp only [hfin, Option.isSome_none, Bool.false_eq_true,
                ite_false] at hnil
              rw [hmono] at hnil
              obtain ⟨w, hw, _⟩ := isValue_toStored _ hv
              rw [hw] at hnil
              cases hnil

/-- C1: over one rule table (`element_type`, from `src/ty/infer.rs`), the
fixpoint (batch) strategy of `InferTypesSystem::run` and the on-demand
(pull) strategy assign the same final type-or-conflict value to every
entity of a well-formed store (distinct entity identifiers): the fixpoint
map records `v` for an entity exactly when the pull query (given fuel past
the store size, after which its result is stable) returns `v`'s outcome.
The two strategies differ only in scheduling, never in the assignment. -/
theorem fixpoint_and_pull_agree (s : Store)
    (hnd : (s.elems.map Prod.fst).Nodup) (e : Entity) (f : Nat)
    (hf : s.elems.length + 1 ≤ f) (v : Stored) :
    infer_types s e = some v ↔ pull_ty s f e = storedRes v := by
  constructor
  · intro h
    have hfwd := infer_types_agrees s hnd e v h
    rw [pull_ty_le s (s.elems.length + 1) f hf e
      (by rw [hfwd]; exact storedRes_isValue v), hfwd]
  · intro h
    obtain ⟨w, hw, hsw⟩ := pull_value_committed s hnd f e
      (by rw [h]; exact storedRes_isValue v)
    rw [h] at hsw
    rw [← storedRes_inj w v hsw]
    exact hw

/-- Witness for C1: on the two-entity store `s1` (a `U32` literal and a
variable bound to it), both strategies assign the variable the type `U32`. -/
theorem fixpoint_and_pull_agree_witness :
    ((s1.elems.map Prod.fst).Nodup ∧ s1.elems.length + 1 ≤ 3) ∧
    (infer_types s1 1 = some (.resolved (.number .u32)) ↔
      pull_ty s1 3 1 = storedRes (.resolved (.number .u32))) :=
  ⟨⟨by decide, by decide⟩,
    fixpoint_and_pull_agree s1 (by decide) 1 3 (by decide)
      (.resolved (.number .u32))⟩
